import Mathlib

/-!
Shallow embedding of the `TACoChildApplication` staking-authorization registry
contract (Solidity ^0.8.0).  Addresses are `Nat` (the zero address is `0`);
machine integers are `Nat` with explicit bounds where overflow or underflow
matters: Solidity 0.8 checked arithmetic reverts on under/overflow, which is
modelled by `Option` results (`none` = revert, leaving state unchanged).
-/

namespace TACo

/-- Pointwise update of a mapping, mirroring a Solidity `mapping` store. -/
def upd {α : Type} (f : Nat → α) (k : Nat) (v : α) : Nat → α :=
  fun x => if x = k then v else f x

@[simp] theorem upd_same {α : Type} (f : Nat → α) (k : Nat) (v : α) : upd f k v k = v := by
  simp [upd]

@[simp] theorem upd_other {α : Type} (f : Nat → α) (k x : Nat) (v : α) (h : x ≠ k) :
    upd f k v x = f x := by
  simp [upd, h]

/-- Events emitted by the contract. -/
inductive Event where
  | OperatorUpdated (stakingProvider operator : Nat)
  | AuthorizationUpdated (stakingProvider authorized deauthorizing endDeauthorization : Nat)
  | OperatorConfirmed (stakingProvider operator : Nat)
deriving DecidableEq

/-- `struct StakingProviderInfo`: `operator` (address), `authorized` (uint96),
`operatorConfirmed` (bool), `index` (uint248, position in `stakingProviders`
plus one), `deauthorizing` (uint96), `endDeauthorization` (uint64). -/
structure StakingProviderInfo where
  operator : Nat
  authorized : Nat
  operatorConfirmed : Bool
  index : Nat
  deauthorizing : Nat
  endDeauthorization : Nat
deriving DecidableEq

/-- Default (all-zero) mapping entry. -/
def emptyInfo : StakingProviderInfo :=
  { operator := 0, authorized := 0, operatorConfirmed := false,
    index := 0, deauthorizing := 0, endDeauthorization := 0 }

/-- Construction-time immutables and the external environment:
`rootApplication` and `minimumAuthorization` are set in the constructor;
`selfAddr` is the registry's own address; `coordApplication a` models the
external call `Coordinator(a).application()` performed during initialization. -/
structure Config where
  rootApplication : Nat
  minimumAuthorization : Nat
  selfAddr : Nat
  coordApplication : Nat → Nat

/-- Mutable contract storage (as seen through the proxy, so all fields start
zeroed).  `initDone` models the OpenZeppelin `initializer` latch. -/
structure State where
  initDone : Bool
  coordinator : Nat
  stakingProviderInfo : Nat → StakingProviderInfo
  stakingProviders : List Nat
  operatorToStakingProvider : Nat → Nat
  events : List Event

/-- Storage of a freshly deployed proxy: everything zero. -/
def initialState : State :=
  { initDone := false, coordinator := 0,
    stakingProviderInfo := fun _ => emptyInfo,
    stakingProviders := [],
    operatorToStakingProvider := fun _ => 0,
    events := [] }

/-- `type(uint256).max`. -/
def UINT256MAX : Nat := 2 ^ 256 - 1

/-- `initialize(address _coordinator)`: guarded by the `initializer` latch;
requires `coordinator == address(0)`, a non-zero argument, and
`Coordinator(_coordinator).application() == address(this)`.
(The source names this function `initialize`; renamed here.) -/
def initRegistry (c : Config) (s : State) (coordArg : Nat) : Option State :=
  if s.initDone then none
  else if s.coordinator ≠ 0 then none
  else if coordArg = 0 then none
  else if c.coordApplication coordArg ≠ c.selfAddr then none
  else some { s with initDone := true, coordinator := coordArg }

/-- `eligibleStake(address _stakingProvider, uint256 _endDate)`:
`eligibleAmount -= info.deauthorizing` is a checked uint96 subtraction, so the
call reverts (`none`) when `deauthorizing > authorized` and the deauthorization
window is active. -/
def eligibleStake (s : State) (stakingProvider endDate : Nat) : Option Nat :=
  let info := s.stakingProviderInfo stakingProvider
  if 0 < info.endDeauthorization ∧ info.endDeauthorization < endDate then
    if info.deauthorizing ≤ info.authorized then
      some (info.authorized - info.deauthorizing)
    else none
  else some info.authorized

/-- `_updateOperator(address stakingProvider, address operator)`.  On first
assignment the provider is pushed onto `stakingProviders` and
`info.index = uint248(stakingProviders.length)` after the push; the `uint248`
cast is the identity for any realizable array length (< 2^248). -/
def _updateOperator (s : State) (stakingProvider operator : Nat) : State :=
  let info := s.stakingProviderInfo stakingProvider
  let oldOperator := info.operator
  if stakingProvider = 0 ∨ operator = oldOperator then s
  else
    let providers' :=
      if info.index = 0 then s.stakingProviders ++ [stakingProvider] else s.stakingProviders
    let index' :=
      if info.index = 0 then s.stakingProviders.length + 1 else info.index
    let o2sp' := upd s.operatorToStakingProvider oldOperator 0
    let o2sp'' := if operator ≠ 0 then upd o2sp' operator stakingProvider else o2sp'
    { s with
      stakingProviders := providers',
      stakingProviderInfo := upd s.stakingProviderInfo stakingProvider
        { info with operator := operator, index := index', operatorConfirmed := false },
      operatorToStakingProvider := o2sp'',
      events := s.events ++ [Event.OperatorUpdated stakingProvider operator] }

/-- `_updateAuthorization(address, uint96, uint96, uint64)`. -/
def _updateAuthorization (s : State)
    (stakingProvider authorized deauthorizing endDeauthorization : Nat) : State :=
  let info := s.stakingProviderInfo stakingProvider
  if stakingProvider = 0 ∨
      (authorized = info.authorized ∧ deauthorizing = info.deauthorizing ∧
        endDeauthorization = info.endDeauthorization) then s
  else
    { s with
      stakingProviderInfo := upd s.stakingProviderInfo stakingProvider
        { info with authorized := authorized, deauthorizing := deauthorizing,
                    endDeauthorization := endDeauthorization },
      events := s.events ++
        [Event.AuthorizationUpdated stakingProvider authorized deauthorizing endDeauthorization] }

/-- `confirmOperatorAddress(address _operator)`: coordinator-only; resolves the
provider through `operatorToStakingProvider`; requires
`info.authorized >= minimumAuthorization` and `!info.operatorConfirmed`.
The outbound `rootApplication.confirmOperatorAddress` call touches no local
storage and is not modelled. -/
def confirmOperatorAddress (c : Config) (s : State) (caller operator : Nat) : Option State :=
  if caller ≠ s.coordinator then none
  else
    let stakingProvider := s.operatorToStakingProvider operator
    let info := s.stakingProviderInfo stakingProvider
    if info.authorized < c.minimumAuthorization then none
    else if info.operatorConfirmed then none
    else
      some { s with
        stakingProviderInfo := upd s.stakingProviderInfo stakingProvider
          { info with operatorConfirmed := true },
        events := s.events ++ [Event.OperatorConfirmed stakingProvider operator] }

/-- Packing of one result entry:
`bytes32(bytes20(stakingProvider)) | bytes32(uint256(eligibleAmount))` places
the 160-bit address in the high bytes and the `uint96` amount in the low
96 bits; since the amount is below `2^96` the bitwise or is this addition. -/
def pack (stakingProvider eligibleAmount : Nat) : Nat :=
  stakingProvider * 2 ^ 96 + eligibleAmount

/-- Loop body of `getActiveStakingProviders`, over the scanned slice of
`stakingProviders`, threading the `uint96` accumulator `allAuthorizedTokens`
(`+=` is checked, reverting when the sum reaches `2^96`).  The final
`mstore`-truncation of the output array corresponds to returning exactly the
entries written, densely in order. -/
def activeLoop (c : Config) (s : State) (endDate : Nat) :
    List Nat → Nat → Option (Nat × List Nat)
  | [], acc => some (acc, [])
  | p :: ps, acc =>
    match eligibleStake s p endDate with
    | none => none
    | some eligibleAmount =>
      if eligibleAmount < c.minimumAuthorization ∨
          (s.stakingProviderInfo p).operatorConfirmed = false then
        activeLoop c s endDate ps acc
      else if acc + eligibleAmount < 2 ^ 96 then
        match activeLoop c s endDate ps (acc + eligibleAmount) with
        | none => none
        | some r => some (r.1, pack p eligibleAmount :: r.2)
      else none

/-- `getActiveStakingProviders(uint256 _startIndex, uint256 _maxStakingProviders,
uint32 _cohortDuration)`: requires `_startIndex < stakingProviders.length`;
the pagination bound `_startIndex + _maxStakingProviders` is a checked uint256
addition that reverts on overflow, but is only evaluated when
`_maxStakingProviders != 0` (short-circuit `&&`); scans up to `endIndex`;
`endDate` is `type(uint256).max` when the duration is 0, else
`block.timestamp + _cohortDuration` (also a checked uint256 addition). -/
def getActiveStakingProviders (c : Config) (s : State)
    (now startIndex maxStakingProviders cohortDuration : Nat) : Option (Nat × List Nat) :=
  let len := s.stakingProviders.length
  if startIndex < len then
    if maxStakingProviders ≠ 0 ∧ ¬ startIndex + maxStakingProviders < 2 ^ 256 then none
    else
      let endIndex :=
        if maxStakingProviders ≠ 0 ∧ startIndex + maxStakingProviders < len then
          startIndex + maxStakingProviders
        else len
      if cohortDuration = 0 then
        activeLoop c s UINT256MAX
          ((s.stakingProviders.drop startIndex).take (endIndex - startIndex)) 0
      else if now + cohortDuration < 2 ^ 256 then
        activeLoop c s (now + cohortDuration)
          ((s.stakingProviders.drop startIndex).take (endIndex - startIndex)) 0
      else none
  else none

/-- External transactions, with their `msg.sender` where access is checked. -/
inductive Op where
  | initRegistry (coordArg : Nat)
  | updateOperator (caller stakingProvider operator : Nat)
  | updateAuthorization (caller stakingProvider authorized deauthorizing endDeauthorization : Nat)
  | updateAuthorizationLegacy (caller stakingProvider authorized : Nat)
  | confirmOperatorAddress (caller operator : Nat)
deriving DecidableEq

/-- One transaction: `none` is a revert.  `updateOperator` and both
`updateAuthorization` overloads are `onlyRootApplication`; the legacy overload
forwards `_updateAuthorization(stakingProvider, authorized, 0, 0)`. -/
def step (c : Config) (s : State) : Op → Option State
  | .initRegistry coordArg => initRegistry c s coordArg
  | .updateOperator caller sp op =>
    if caller = c.rootApplication then some (_updateOperator s sp op) else none
  | .updateAuthorization caller sp a d e =>
    if caller = c.rootApplication then some (_updateAuthorization s sp a d e) else none
  | .updateAuthorizationLegacy caller sp a =>
    if caller = c.rootApplication then some (_updateAuthorization s sp a 0 0) else none
  | .confirmOperatorAddress caller op => confirmOperatorAddress c s caller op

/-- A reverted transaction leaves storage unchanged. -/
def execTx (c : Config) (s : State) (o : Op) : State :=
  (step c s o).getD s

/-- Run a sequence of transactions from a state. -/
def runFrom (c : Config) (s : State) (ops : List Op) : State :=
  ops.foldl (execTx c) s

/-- Run a sequence of transactions from the freshly deployed proxy. -/
def run (c : Config) (ops : List Op) : State :=
  runFrom c initialState ops

/-- Field bounds guaranteed by the storage types (`uint96`, `uint96`, `uint64`). -/
def WF (s : State) : Prop :=
  ∀ p, (s.stakingProviderInfo p).authorized < 2 ^ 96 ∧
       (s.stakingProviderInfo p).deauthorizing < 2 ^ 96 ∧
       (s.stakingProviderInfo p).endDeauthorization < 2 ^ 64

/-! Specification-side definitions, written from the words of the spec for the
refinement claims about `eligibleStake` and `getActiveStakingProviders`. -/

/-- Spec formula for eligible stake: `authorized - deauthorizing` if
`0 < endDeauthorization < endDate`, else `authorized`. -/
def specEligibleStake (s : State) (p endDate : Nat) : Nat :=
  let info := s.stakingProviderInfo p
  if 0 < info.endDeauthorization ∧ info.endDeauthorization < endDate then
    info.authorized - info.deauthorizing
  else info.authorized

/-- Spec-side survivor filter: keep providers whose eligible stake at the
horizon is at least `minimumAuthorization` and whose operator is confirmed. -/
def specActive (c : Config) (s : State) (endDate : Nat) (l : List Nat) : List Nat :=
  l.filter fun p =>
    decide (c.minimumAuthorization ≤ specEligibleStake s p endDate) &&
      (s.stakingProviderInfo p).operatorConfirmed

/-- Spec-side aggregate: sum of the survivors' eligible amounts. -/
def specSumTokens (c : Config) (s : State) (endDate : Nat) (l : List Nat) : Nat :=
  ((specActive c s endDate l).map fun p => specEligibleStake s p endDate).sum

/-- Spec-side packed result: the survivors, in order, densely packed. -/
def specPacked (c : Config) (s : State) (endDate : Nat) (l : List Nat) : List Nat :=
  (specActive c s endDate l).map fun p => pack p (specEligibleStake s p endDate)

/-- Spec-side scan bound: through `startIndex + maxCount`, or through the end
of the array when `maxCount` is 0 or `startIndex + maxCount` exceeds the
length. -/
def specEndIndex (len startIndex maxCount : Nat) : Nat :=
  if maxCount = 0 ∨ len < startIndex + maxCount then len else startIndex + maxCount

/-- Spec-side scanned slice `stakingProviders[startIndex .. endIndex)`. -/
def specScanRange (s : State) (startIndex endIndex : Nat) : List Nat :=
  (s.stakingProviders.drop startIndex).take (endIndex - startIndex)

/-- Spec-side horizon: `now + cohortDuration`, unbounded when the duration is 0. -/
def specHorizon (now cohortDuration : Nat) : Nat :=
  if cohortDuration = 0 then UINT256MAX else now + cohortDuration

/-- Claim-side (C1) active set: the providers in `stakingProviders` with
`operatorConfirmed == true` and `authorized >= minimumAuthorization`. -/
def specActiveC1 (c : Config) (s : State) : List Nat :=
  s.stakingProviders.filter fun p =>
    (s.stakingProviderInfo p).operatorConfirmed &&
      decide (c.minimumAuthorization ≤ (s.stakingProviderInfo p).authorized)

/-- Claim-side (C1) result: those providers' summed `authorized` fields and
their packed entries. -/
def specC1 (c : Config) (s : State) : Nat × List Nat :=
  (((specActiveC1 c s).map fun p => (s.stakingProviderInfo p).authorized).sum,
   (specActiveC1 c s).map fun p => pack p (s.stakingProviderInfo p).authorized)

/-! Helper lemmas. -/

theorem eligibleStake_eq_spec (s : State) (p endDate : Nat)
    (h : (s.stakingProviderInfo p).deauthorizing ≤ (s.stakingProviderInfo p).authorized) :
    eligibleStake s p endDate = some (specEligibleStake s p endDate) := by
  simp only [eligibleStake, specEligibleStake]
  split
  · simp [h]
  · rfl

theorem eligibleStake_of_inactive (s : State) (p endDate : Nat)
    (h : ¬ (0 < (s.stakingProviderInfo p).endDeauthorization ∧
        (s.stakingProviderInfo p).endDeauthorization < endDate)) :
    eligibleStake s p endDate = some (specEligibleStake s p endDate) := by
  simp only [eligibleStake, specEligibleStake]
  rw [if_neg h, if_neg h]

theorem specEligibleStake_le (s : State) (p endDate : Nat) :
    specEligibleStake s p endDate ≤ (s.stakingProviderInfo p).authorized := by
  simp only [specEligibleStake]
  split
  · exact Nat.sub_le _ _
  · exact Nat.le_refl _

/-- The scanning loop computes exactly the spec-side survivors, their packed
entries and their summed eligible amounts, provided `eligibleStake` agrees with
the spec formula on every scanned provider and the final sum fits in `uint96`. -/
theorem activeLoop_spec (c : Config) (s : State) (endDate : Nat) (l : List Nat) :
    ∀ acc : Nat,
      (∀ p ∈ l, eligibleStake s p endDate = some (specEligibleStake s p endDate) ∧
        specEligibleStake s p endDate < 2 ^ 96) →
      acc + specSumTokens c s endDate l < 2 ^ 96 →
      activeLoop c s endDate l acc =
        some (acc + specSumTokens c s endDate l, specPacked c s endDate l) := by
  induction l with
  | nil =>
    intro acc _ _
    simp [activeLoop, specSumTokens, specPacked, specActive]
  | cons p ps ih =>
    intro acc hb hsum
    obtain ⟨he, hlt⟩ := hb p (List.mem_cons_self p ps)
    have hbs : ∀ q ∈ ps, eligibleStake s q endDate = some (specEligibleStake s q endDate) ∧
        specEligibleStake s q endDate < 2 ^ 96 :=
      fun q hq => hb q (List.mem_cons_of_mem p hq)
    by_cases hskip : specEligibleStake s p endDate < c.minimumAuthorization ∨
        (s.stakingProviderInfo p).operatorConfirmed = false
    · have hpred : (decide (c.minimumAuthorization ≤ specEligibleStake s p endDate) &&
          (s.stakingProviderInfo p).operatorConfirmed) = false := by
        rcases hskip with h1 | h1
        · simp [Nat.not_le.mpr h1]
        · simp [h1]
      have hact : specActive c s endDate (p :: ps) = specActive c s endDate ps := by
        simp [specActive, List.filter_cons, hpred]
      have hsum' : specSumTokens c s endDate (p :: ps) = specSumTokens c s endDate ps := by
        simp [specSumTokens, hact]
      have hpk : specPacked c s endDate (p :: ps) = specPacked c s endDate ps := by
        simp [specPacked, hact]
      rw [hsum', hpk]
      simp only [activeLoop, he, if_pos hskip]
      exact ih acc hbs (by rw [← hsum']; exact hsum)
    · have hmin : c.minimumAuthorization ≤ specEligibleStake s p endDate := by
        rcases Nat.lt_or_ge (specEligibleStake s p endDate) c.minimumAuthorization with h1 | h1
        · exact absurd (Or.inl h1) hskip
        · exact h1
      have hconf : (s.stakingProviderInfo p).operatorConfirmed = true := by
        by_contra hc
        exact hskip (Or.inr (Bool.eq_false_iff.mpr hc))
      have hpred : (decide (c.minimumAuthorization ≤ specEligibleStake s p endDate) &&
          (s.stakingProviderInfo p).operatorConfirmed) = true := by
        simp [hmin, hconf]
      have hact : specActive c s endDate (p :: ps) = p :: specActive c s endDate ps := by
        simp [specActive, List.filter_cons, hpred]
      have hsum' : specSumTokens c s endDate (p :: ps) =
          specEligibleStake s p endDate + specSumTokens c s endDate ps := by
        simp [specSumTokens, hact]
      have hpk : specPacked c s endDate (p :: ps) =
          pack p (specEligibleStake s p endDate) :: specPacked c s endDate ps := by
        simp [specPacked, hact]
      have hacc : acc + specEligibleStake s p endDate < 2 ^ 96 := by
        rw [hsum'] at hsum; omega
      have hrec : (acc + specEligibleStake s p endDate) + specSumTokens c s endDate ps
          < 2 ^ 96 := by
        rw [hsum'] at hsum; omega
      rw [hsum', hpk]
      simp only [activeLoop, he, if_neg hskip, if_pos hacc, ih _ hbs hrec]
      simp [Nat.add_assoc]

/-- The loop bound computed by the code agrees with the spec-side bound. -/
theorem endIndex_eq_spec (len startIndex maxCount : Nat) :
    (if maxCount ≠ 0 ∧ startIndex + maxCount < len then startIndex + maxCount else len) =
      specEndIndex len startIndex maxCount := by
  simp only [specEndIndex]
  by_cases h1 : maxCount = 0
  · simp [h1]
  · by_cases h2 : startIndex + maxCount < len
    · have h3 : ¬ len < startIndex + maxCount := by omega
      simp [h1, h2, h3]
    · by_cases h4 : len < startIndex + maxCount
      · simp [h1, h2, h4]
      · have h5 : startIndex + maxCount = len := by omega
        simp [h1, h2, h4, h5]

/-! Concrete sample values used by witnesses and counterexamples. -/

/-- A sample configuration: root application at address 7, minimum
authorization 5, the registry itself at address 9, and the coordinator at
address 3 recording the registry as its application. -/
def sampleConfig : Config :=
  { rootApplication := 7, minimumAuthorization := 5, selfAddr := 9,
    coordApplication := fun a => if a = 3 then 9 else 0 }

/-- State whose single provider 1 has an active deauthorization window with
`deauthorizing > authorized`. -/
def underflowState : State :=
  { initialState with
    stakingProviderInfo := fun p =>
      if p = 1 then
        { operator := 2, authorized := 5, operatorConfirmed := true, index := 1,
          deauthorizing := 10, endDeauthorization := 1 }
      else emptyInfo,
    stakingProviders := [1],
    operatorToStakingProvider := fun o => if o = 2 then 1 else 0 }

/-- State whose single provider 1 has `authorized = 10`, `deauthorizing = 4`,
`endDeauthorization = 1`. -/
def deauthState : State :=
  { initialState with
    stakingProviderInfo := fun p =>
      if p = 1 then
        { operator := 2, authorized := 10, operatorConfirmed := true, index := 1,
          deauthorizing := 4, endDeauthorization := 1 }
      else emptyInfo,
    stakingProviders := [1],
    operatorToStakingProvider := fun o => if o = 2 then 1 else 0 }

/-! Claim C3. -/

/-- C3 fails as stated: at a provider whose pending deauthorization exceeds its
authorization (`authorized = 5 < deauthorizing = 10`, `0 < endDeauthorization =
1 < endDate = 2`), `eligibleStake` reverts (`none`) instead of returning
`authorized - deauthorizing`. -/
theorem c3_counterexample :
    0 < (underflowState.stakingProviderInfo 1).endDeauthorization ∧
    (underflowState.stakingProviderInfo 1).endDeauthorization < 2 ∧
    eligibleStake underflowState 1 2 = none := by
  decide

/-- C3 (amended): for every provider `p` and every `endDate`, provided
`deauthorizing ≤ authorized`, `eligibleStake(p, endDate)` returns
`authorized - deauthorizing` when `0 < endDeauthorization` and
`endDeauthorization < endDate`, and returns `authorized` otherwise. -/
theorem c3_eligibleStake_formula (s : State) (p endDate : Nat)
    (h : (s.stakingProviderInfo p).deauthorizing ≤ (s.stakingProviderInfo p).authorized) :
    eligibleStake s p endDate =
      some (if 0 < (s.stakingProviderInfo p).endDeauthorization ∧
            (s.stakingProviderInfo p).endDeauthorization < endDate then
          (s.stakingProviderInfo p).authorized - (s.stakingProviderInfo p).deauthorizing
        else (s.stakingProviderInfo p).authorized) := by
  rw [eligibleStake_eq_spec s p endDate h]
  rfl

/-- Witness for C3: at `deauthState`'s provider 1 (authorized 10,
deauthorizing 4, endDeauthorization 1) the formula yields 6 at endDate 5. -/
theorem c3_eligibleStake_formula_witness :
    (deauthState.stakingProviderInfo 1).deauthorizing ≤
      (deauthState.stakingProviderInfo 1).authorized ∧
    eligibleStake deauthState 1 5 =
      some (if 0 < (deauthState.stakingProviderInfo 1).endDeauthorization ∧
            (deauthState.stakingProviderInfo 1).endDeauthorization < 5 then
          (deauthState.stakingProviderInfo 1).authorized -
            (deauthState.stakingProviderInfo 1).deauthorizing
        else (deauthState.stakingProviderInfo 1).authorized) :=
  ⟨by decide, c3_eligibleStake_formula deauthState 1 5 (by decide)⟩

/-! Claim C10. -/

/-- C10: `eligibleStake` is not total.  When the deauthorization window is
active and `authorized < deauthorizing` the checked subtraction reverts;
`_updateAuthorization` stores any field combination for a non-zero provider
without validating `deauthorizing ≤ authorized`, so such states are reachable;
and under the precondition `deauthorizing ≤ authorized` the spec formula holds. -/
theorem c10_eligibleStake_partiality :
    (∀ (s : State) (p endDate : Nat),
        0 < (s.stakingProviderInfo p).endDeauthorization →
        (s.stakingProviderInfo p).endDeauthorization < endDate →
        (s.stakingProviderInfo p).authorized < (s.stakingProviderInfo p).deauthorizing →
        eligibleStake s p endDate = none) ∧
    (∀ (s : State) (sp a d e : Nat), sp ≠ 0 →
        ((_updateAuthorization s sp a d e).stakingProviderInfo sp).authorized = a ∧
        ((_updateAuthorization s sp a d e).stakingProviderInfo sp).deauthorizing = d ∧
        ((_updateAuthorization s sp a d e).stakingProviderInfo sp).endDeauthorization = e) ∧
    (∀ (s : State) (p endDate : Nat),
        (s.stakingProviderInfo p).deauthorizing ≤ (s.stakingProviderInfo p).authorized →
        eligibleStake s p endDate = some (specEligibleStake s p endDate)) := by
  refine ⟨?_, ?_, ?_⟩
  · intro s p endDate h1 h2 h3
    simp only [eligibleStake]
    rw [if_pos ⟨h1, h2⟩, if_neg (Nat.not_le.mpr h3)]
  · intro s sp a d e hsp
    simp only [_updateAuthorization]
    by_cases hsame : a = (s.stakingProviderInfo sp).authorized ∧
        d = (s.stakingProviderInfo sp).deauthorizing ∧
        e = (s.stakingProviderInfo sp).endDeauthorization
    · rw [if_pos (Or.inr hsame)]
      exact ⟨hsame.1.symm, hsame.2.1.symm, hsame.2.2.symm⟩
    · rw [if_neg (by
        intro h
        rcases h with h | h
        · exact hsp h
        · exact hsame h)]
      simp
  · exact eligibleStake_eq_spec

/-- Witness for C10: the revert at `underflowState` (authorized 5 <
deauthorizing 10, window active) and the stored unvalidated combination. -/
theorem c10_eligibleStake_partiality_witness :
    eligibleStake underflowState 1 2 = none ∧
    ((_updateAuthorization initialState 1 5 10 1).stakingProviderInfo 1).deauthorizing = 10 :=
  ⟨c10_eligibleStake_partiality.1 underflowState 1 2 (by decide) (by decide) (by decide),
   (c10_eligibleStake_partiality.2.1 initialState 1 5 10 1 (by decide)).2.1⟩

/-! Further helper lemmas: success characterizations and frame conditions. -/

theorem confirm_success (c : Config) (s : State) (caller op : Nat) (s' : State)
    (h : confirmOperatorAddress c s caller op = some s') :
    caller = s.coordinator ∧
    c.minimumAuthorization ≤
      (s.stakingProviderInfo (s.operatorToStakingProvider op)).authorized ∧
    (s.stakingProviderInfo (s.operatorToStakingProvider op)).operatorConfirmed = false ∧
    s' = { s with
      stakingProviderInfo := upd s.stakingProviderInfo (s.operatorToStakingProvider op)
        { s.stakingProviderInfo (s.operatorToStakingProvider op) with operatorConfirmed := true },
      events := s.events ++
        [Event.OperatorConfirmed (s.operatorToStakingProvider op) op] } := by
  simp only [confirmOperatorAddress] at h
  by_cases h1 : caller ≠ s.coordinator
  · rw [if_pos h1] at h; cases h
  · rw [if_neg h1] at h
    by_cases h2 : (s.stakingProviderInfo (s.operatorToStakingProvider op)).authorized <
        c.minimumAuthorization
    · rw [if_pos h2] at h; cases h
    · rw [if_neg h2] at h
      by_cases h3 : (s.stakingProviderInfo (s.operatorToStakingProvider op)).operatorConfirmed
      · rw [if_pos h3] at h; cases h
      · rw [if_neg h3] at h
        exact ⟨not_not.mp h1, Nat.not_lt.mp h2, Bool.eq_false_iff.mpr h3,
          (Option.some.inj h).symm⟩

@[simp] theorem _updateOperator_coordinator (s : State) (sp op : Nat) :
    (_updateOperator s sp op).coordinator = s.coordinator := by
  simp only [_updateOperator]
  split <;> rfl

@[simp] theorem _updateAuthorization_coordinator (s : State) (sp a d e : Nat) :
    (_updateAuthorization s sp a d e).coordinator = s.coordinator := by
  simp only [_updateAuthorization]
  split <;> rfl

/-! Claim C4. -/

/-- C4: `confirmOperatorAddress`, called by the coordinator, reverts when the
provider resolved through `operatorToStakingProvider` has
`authorized < minimumAuthorization`, reverts when that provider is already
confirmed, and in particular a second call for the same operator without an
intervening `updateOperator` reverts. -/
theorem c4_confirm_requirements :
    (∀ (c : Config) (s : State) (caller op : Nat),
        caller = s.coordinator →
        (s.stakingProviderInfo (s.operatorToStakingProvider op)).authorized <
          c.minimumAuthorization →
        step c s (.confirmOperatorAddress caller op) = none) ∧
    (∀ (c : Config) (s : State) (caller op : Nat),
        caller = s.coordinator →
        (s.stakingProviderInfo (s.operatorToStakingProvider op)).operatorConfirmed = true →
        step c s (.confirmOperatorAddress caller op) = none) ∧
    (∀ (c : Config) (s : State) (s' : State) (caller op : Nat),
        step c s (.confirmOperatorAddress caller op) = some s' →
        step c s' (.confirmOperatorAddress caller op) = none) := by
  refine ⟨?_, ?_, ?_⟩
  · intro c s caller op hc hauth
    simp only [step, confirmOperatorAddress]
    rw [if_neg (not_not_intro hc), if_pos hauth]
  · intro c s caller op hc hconf
    simp only [step, confirmOperatorAddress]
    rw [if_neg (not_not_intro hc)]
    by_cases h2 : (s.stakingProviderInfo (s.operatorToStakingProvider op)).authorized <
        c.minimumAuthorization
    · rw [if_pos h2]
    · rw [if_neg h2, if_pos hconf]
  · intro c s s' caller op h
    obtain ⟨hc, hauth, hconf, rfl⟩ := confirm_success c s caller op s' h
    simp only [step, confirmOperatorAddress, upd_same]
    rw [if_neg (not_not_intro hc), if_neg (Nat.not_lt.mpr hauth)]
    simp

/-- State before a first confirmation: provider 1, operator 2, authorized 10,
unconfirmed; coordinator 3. -/
def preConfirmState : State :=
  { initDone := true, coordinator := 3,
    stakingProviderInfo := fun p => if p = 1 then ⟨2, 10, false, 1, 0, 0⟩ else emptyInfo,
    stakingProviders := [1],
    operatorToStakingProvider := fun o => if o = 2 then 1 else 0,
    events := [] }

/-- State whose provider 1 has authorization 1, below the minimum 5. -/
def lowAuthState : State :=
  { initDone := true, coordinator := 3,
    stakingProviderInfo := fun p => if p = 1 then ⟨2, 1, false, 1, 0, 0⟩ else emptyInfo,
    stakingProviders := [1],
    operatorToStakingProvider := fun o => if o = 2 then 1 else 0,
    events := [] }

/-- Witness for C4: a below-minimum confirmation reverts, a first confirmation
succeeds, and the immediate second confirmation reverts. -/
theorem c4_confirm_requirements_witness :
    (lowAuthState.stakingProviderInfo (lowAuthState.operatorToStakingProvider 2)).authorized <
      sampleConfig.minimumAuthorization ∧
    step sampleConfig lowAuthState (.confirmOperatorAddress 3 2) = none ∧
    step sampleConfig preConfirmState (.confirmOperatorAddress 3 2) =
      some (execTx sampleConfig preConfirmState (.confirmOperatorAddress 3 2)) ∧
    step sampleConfig (execTx sampleConfig preConfirmState (.confirmOperatorAddress 3 2))
      (.confirmOperatorAddress 3 2) = none :=
  ⟨by decide, c4_confirm_requirements.1 sampleConfig lowAuthState 3 2 rfl (by decide), rfl,
   c4_confirm_requirements.2.2 sampleConfig preConfirmState _ 3 2 rfl⟩

/-! Claim C5. -/

/-- C5: `updateOperator(provider, operator)` (root-application caller) is a
no-op when the provider is the zero address or the operator is unchanged;
otherwise it sets the provider's operator, clears the previous operator's
reverse-mapping entry, maps the new operator to the provider when non-zero,
resets `operatorConfirmed` to false, and emits the operator-updated event. -/
theorem c5_updateOperator_semantics (c : Config) (s : State) (sp op : Nat) :
    ((sp = 0 ∨ op = (s.stakingProviderInfo sp).operator) →
      step c s (.updateOperator c.rootApplication sp op) = some s) ∧
    (sp ≠ 0 → op ≠ (s.stakingProviderInfo sp).operator →
      ∃ s', step c s (.updateOperator c.rootApplication sp op) = some s' ∧
        (s'.stakingProviderInfo sp).operator = op ∧
        (s'.stakingProviderInfo sp).operatorConfirmed = false ∧
        s'.operatorToStakingProvider ((s.stakingProviderInfo sp).operator) = 0 ∧
        (op ≠ 0 → s'.operatorToStakingProvider op = sp) ∧
        s'.events = s.events ++ [Event.OperatorUpdated sp op]) := by
  constructor
  · intro h
    have hstep : step c s (.updateOperator c.rootApplication sp op) =
        some (_updateOperator s sp op) := by simp [step]
    rw [hstep]
    simp only [_updateOperator]
    rw [if_pos h]
  · intro hsp hop
    have hno : ¬ (sp = 0 ∨ op = (s.stakingProviderInfo sp).operator) := by
      rintro (h | h)
      · exact hsp h
      · exact hop h
    refine ⟨_updateOperator s sp op, by simp [step], ?_, ?_, ?_, ?_, ?_⟩
    · simp only [_updateOperator, if_neg hno]
      simp
    · simp only [_updateOperator, if_neg hno]
      simp
    · simp only [_updateOperator, if_neg hno]
      by_cases h0 : op ≠ 0
      · simp only [if_pos h0]
        rw [upd_other _ _ _ _ (fun hx => hop hx.symm), upd_same]
      · simp only [if_neg h0, upd_same]
    · intro h0
      simp only [_updateOperator, if_neg hno]
      simp [h0]
    · simp only [_updateOperator, if_neg hno]

/-- Witness for C5: on the fresh state, rebinding provider 0 is a no-op, and
binding provider 1 to operator 2 sets all the described fields. -/
theorem c5_updateOperator_semantics_witness :
    step sampleConfig initialState (.updateOperator 7 0 5) = some initialState ∧
    (∃ s', step sampleConfig initialState (.updateOperator 7 1 2) = some s' ∧
        (s'.stakingProviderInfo 1).operator = 2 ∧
        (s'.stakingProviderInfo 1).operatorConfirmed = false ∧
        s'.operatorToStakingProvider ((initialState.stakingProviderInfo 1).operator) = 0 ∧
        ((2 : Nat) ≠ 0 → s'.operatorToStakingProvider 2 = 1) ∧
        s'.events = initialState.events ++ [Event.OperatorUpdated 1 2]) :=
  ⟨(c5_updateOperator_semantics sampleConfig initialState 0 5).1 (Or.inl rfl),
   (c5_updateOperator_semantics sampleConfig initialState 1 2).2 (by decide) (by decide)⟩

/-! Claim C8. -/

/-- C8: `initialize` fails when the coordinator is already set (hence a second
call with any argument fails), fails on the zero address, and fails when the
target coordinator's recorded application is not this registry; on success it
sets `coordinator`, and no operation ever changes a non-zero `coordinator`. -/
theorem c8_initRegistry_once :
    (∀ (c : Config) (s : State) (coordArg : Nat),
        s.coordinator ≠ 0 → step c s (.initRegistry coordArg) = none) ∧
    (∀ (c : Config) (s : State), step c s (.initRegistry 0) = none) ∧
    (∀ (c : Config) (s : State) (coordArg : Nat),
        c.coordApplication coordArg ≠ c.selfAddr →
        step c s (.initRegistry coordArg) = none) ∧
    (∀ (c : Config) (s : State) (coordArg : Nat) (s' : State),
        step c s (.initRegistry coordArg) = some s' → s'.coordinator = coordArg) ∧
    (∀ (c : Config) (s : State) (o : Op) (s' : State),
        step c s o = some s' → s.coordinator ≠ 0 → s'.coordinator = s.coordinator) ∧
    (∀ (c : Config) (s : State) (coordArg : Nat) (s' : State) (coordArg2 : Nat),
        step c s (.initRegistry coordArg) = some s' →
        step c s' (.initRegistry coordArg2) = none) := by
  have hsucc : ∀ (c : Config) (s : State) (coordArg : Nat) (s' : State),
      step c s (.initRegistry coordArg) = some s' →
      s' = { s with initDone := true, coordinator := coordArg } := by
    intro c s coordArg s' h
    simp only [step, initRegistry] at h
    by_cases h1 : s.initDone
    · rw [if_pos h1] at h; cases h
    · rw [if_neg h1] at h
      by_cases h2 : s.coordinator ≠ 0
      · rw [if_pos h2] at h; cases h
      · rw [if_neg h2] at h
        by_cases h3 : coordArg = 0
        · rw [if_pos h3] at h; cases h
        · rw [if_neg h3] at h
          by_cases h4 : c.coordApplication coordArg ≠ c.selfAddr
          · rw [if_pos h4] at h; cases h
          · rw [if_neg h4] at h
            exact (Option.some.inj h).symm
  refine ⟨?_, ?_, ?_, ?_, ?_, ?_⟩
  · intro c s coordArg hc
    simp only [step, initRegistry]
    by_cases h1 : s.initDone
    · rw [if_pos h1]
    · rw [if_neg h1, if_pos hc]
  · intro c s
    simp only [step, initRegistry]
    by_cases h1 : s.initDone
    · rw [if_pos h1]
    · rw [if_neg h1]
      by_cases h2 : s.coordinator ≠ 0
      · rw [if_pos h2]
      · rw [if_neg h2]
        simp
  · intro c s coordArg happ
    simp only [step, initRegistry]
    by_cases h1 : s.initDone
    · rw [if_pos h1]
    · rw [if_neg h1]
      by_cases h2 : s.coordinator ≠ 0
      · rw [if_pos h2]
      · rw [if_neg h2]
        by_cases h3 : coordArg = 0
        · rw [if_pos h3]
        · rw [if_neg h3, if_pos happ]
  · intro c s coordArg s' h
    rw [hsucc c s coordArg s' h]
  · intro c s o s' h hc
    cases o with
    | initRegistry coordArg =>
      simp only [step, initRegistry] at h
      by_cases h1 : s.initDone
      · rw [if_pos h1] at h; cases h
      · rw [if_neg h1, if_pos hc] at h; cases h
    | updateOperator caller sp op =>
      simp only [step] at h
      by_cases h1 : caller = c.rootApplication
      · rw [if_pos h1] at h
        rw [← Option.some.inj h]
        simp
      · rw [if_neg h1] at h; cases h
    | updateAuthorization caller sp a d e =>
      simp only [step] at h
      by_cases h1 : caller = c.rootApplication
      · rw [if_pos h1] at h
        rw [← Option.some.inj h]
        simp
      · rw [if_neg h1] at h; cases h
    | updateAuthorizationLegacy caller sp a =>
      simp only [step] at h
      by_cases h1 : caller = c.rootApplication
      · rw [if_pos h1] at h
        rw [← Option.some.inj h]
        simp
      · rw [if_neg h1] at h; cases h
    | confirmOperatorAddress caller op =>
      obtain ⟨_, _, _, rfl⟩ := confirm_success c s caller op s' h
      rfl
  · intro c s coordArg s' coordArg2 h
    rw [hsucc c s coordArg s' h]
    simp [step, initRegistry]

/-- Witness for C8: initializing the fresh proxy with coordinator 3 succeeds
and sets `coordinator := 3`; re-initializing with any argument then reverts. -/
theorem c8_initRegistry_once_witness :
    step sampleConfig initialState (.initRegistry 3) =
      some (execTx sampleConfig initialState (.initRegistry 3)) ∧
    (execTx sampleConfig initialState (.initRegistry 3)).coordinator = 3 ∧
    step sampleConfig (execTx sampleConfig initialState (.initRegistry 3))
      (.initRegistry 4) = none ∧
    step sampleConfig preConfirmState (.initRegistry 3) = none :=
  ⟨rfl,
   c8_initRegistry_once.2.2.2.1 sampleConfig initialState 3 _ rfl,
   c8_initRegistry_once.2.2.2.2.2 sampleConfig initialState 3 _ 4 rfl,
   c8_initRegistry_once.1 sampleConfig preConfirmState 3 (by decide)⟩

/-! Claims C1 and C7: the paginated active-provider scan. -/

/-- With an unbounded horizon and no pending deauthorizations, the spec-side
survivor filter coincides with C1's filter on `operatorConfirmed` and
`authorized`. -/
theorem specActive_no_deauth (c : Config) (s : State) :
    ∀ l : List Nat, (∀ p ∈ l, (s.stakingProviderInfo p).endDeauthorization = 0) →
      specActive c s UINT256MAX l =
        l.filter fun p => (s.stakingProviderInfo p).operatorConfirmed &&
          decide (c.minimumAuthorization ≤ (s.stakingProviderInfo p).authorized) := by
  intro l
  induction l with
  | nil => intro _; rfl
  | cons p ps ih =>
    intro hl
    have hp := hl p (List.mem_cons_self p ps)
    have hps : ∀ q ∈ ps, (s.stakingProviderInfo q).endDeauthorization = 0 :=
      fun q hq => hl q (List.mem_cons_of_mem p hq)
    have hspec : specEligibleStake s p UINT256MAX = (s.stakingProviderInfo p).authorized := by
      simp [specEligibleStake, hp]
    simp only [specActive] at ih ⊢
    simp only [List.filter_cons, hspec, Bool.and_comm]
    rw [ih hps]

/-- C1 fails as stated: at `deauthState` (one confirmed provider with
`authorized = 10 ≥ minimumAuthorization = 5` but `deauthorizing = 4` pending
with `endDeauthorization = 1`), `getActiveStakingProviders(0, 0, 0)` uses the
eligible stake `10 - 4 = 6`, not the `authorized` field, so neither the
returned amount nor the sum matches the claim's value 10. -/
theorem c1_counterexample :
    getActiveStakingProviders sampleConfig deauthState 0 0 0 0 ≠
      some (specC1 sampleConfig deauthState) := by
  decide

/-- C1 (amended): for every well-formed state whose `stakingProviders` array is
nonempty (the call reverts on an empty array) and in which no enumerated
provider has a pending deauthorization (`endDeauthorization == 0`), and whose
selected authorized sum fits in `uint96`, `getActiveStakingProviders(0, 0, 0)`
returns exactly the providers with `operatorConfirmed == true` and
`authorized >= minimumAuthorization`, with `allAuthorizedTokens` equal to the
sum of those providers' `authorized` fields. -/
theorem c1_getActive_zero_args (c : Config) (s : State) (now : Nat) (hWF : WF s)
    (hne : s.stakingProviders ≠ [])
    (hnd : ∀ p ∈ s.stakingProviders, (s.stakingProviderInfo p).endDeauthorization = 0)
    (hsum : (specC1 c s).1 < 2 ^ 96) :
    getActiveStakingProviders c s now 0 0 0 = some (specC1 c s) := by
  have hlen : 0 < s.stakingProviders.length := List.length_pos.mpr hne
  have h1 : getActiveStakingProviders c s now 0 0 0 =
      activeLoop c s UINT256MAX s.stakingProviders 0 := by
    simp [getActiveStakingProviders, hlen, List.take_length]
  have hb : ∀ p ∈ s.stakingProviders,
      eligibleStake s p UINT256MAX = some (specEligibleStake s p UINT256MAX) ∧
      specEligibleStake s p UINT256MAX < 2 ^ 96 := by
    intro p hp
    constructor
    · apply eligibleStake_of_inactive
      simp [hnd p hp]
    · exact Nat.lt_of_le_of_lt (specEligibleStake_le s p _) (hWF p).1
  have hact := specActive_no_deauth c s s.stakingProviders hnd
  have hsum_eq : specSumTokens c s UINT256MAX s.stakingProviders = (specC1 c s).1 := by
    simp only [specSumTokens, specC1, specActiveC1, hact]
    refine congrArg List.sum (List.map_congr_left ?_)
    intro q hq
    have hq' : q ∈ s.stakingProviders := List.mem_of_mem_filter hq
    simp [specEligibleStake, hnd q hq']
  have hpk_eq : specPacked c s UINT256MAX s.stakingProviders = (specC1 c s).2 := by
    simp only [specPacked, specC1, specActiveC1, hact]
    refine List.map_congr_left ?_
    intro q hq
    have hq' : q ∈ s.stakingProviders := List.mem_of_mem_filter hq
    simp [specEligibleStake, hnd q hq']
  rw [h1, activeLoop_spec c s UINT256MAX s.stakingProviders 0 hb
    (by rw [Nat.zero_add, hsum_eq]; exact hsum)]
  rw [Nat.zero_add, hsum_eq, hpk_eq]

/-- State with one confirmed provider (authorized 10) and no pending
deauthorization. -/
def noDeauthState : State :=
  { initDone := true, coordinator := 3,
    stakingProviderInfo := fun p => if p = 1 then ⟨2, 10, true, 1, 0, 0⟩ else emptyInfo,
    stakingProviders := [1],
    operatorToStakingProvider := fun o => if o = 2 then 1 else 0,
    events := [] }

theorem noDeauthState_WF : WF noDeauthState := by
  intro p
  by_cases hp : p = 1 <;> simp [noDeauthState, emptyInfo, hp]

/-- Witness for C1: at `noDeauthState` the call returns provider 1 with
amount 10 and aggregate 10, matching the claim's characterization. -/
theorem c1_getActive_zero_args_witness :
    WF noDeauthState ∧
    getActiveStakingProviders sampleConfig noDeauthState 0 0 0 0 =
      some (specC1 sampleConfig noDeauthState) :=
  ⟨noDeauthState_WF,
   c1_getActive_zero_args sampleConfig noDeauthState 0 noDeauthState_WF
     (by decide) (by decide) (by decide)⟩

/-- C7 fails as stated: at `underflowState` (`startIndex = 0 <` array length,
one provider in range whose active deauthorization exceeds its authorization),
the whole call reverts (`none`) through the `eligibleStake` underflow instead
of returning the packed survivor list. -/
theorem c7_counterexample :
    0 < underflowState.stakingProviders.length ∧
    getActiveStakingProviders sampleConfig underflowState 0 0 0 0 = none := by
  decide

/-- C7 (amended): for every well-formed state, provided each scanned provider
satisfies `deauthorizing <= authorized` (otherwise the revert of
`eligibleStake` aborts the whole call), the surviving eligible sum fits in
`uint96`, the horizon addition does not overflow, and the pagination bound
`startIndex + maxCount` does not overflow `uint256` when `maxCount` is
non-zero (otherwise its checked addition reverts),
`getActiveStakingProviders(startIndex, maxCount, cohortDuration)` reverts
exactly when `startIndex >= stakingProviders.length`, and otherwise scans
`stakingProviders[startIndex .. startIndex+maxCount)` (through the end of the
array when `maxCount` is 0 or the bound passes the length), skipping providers
whose eligible stake at the horizon `now + cohortDuration` (unbounded for 0) is
below `minimumAuthorization` or whose operator is unconfirmed, returning the
survivors densely packed together with their summed eligible stake. -/
theorem c7_getActive_paginated (c : Config) (s : State)
    (now startIndex maxCount dur : Nat) (hWF : WF s)
    (hd : ∀ p ∈ specScanRange s startIndex
        (specEndIndex s.stakingProviders.length startIndex maxCount),
      (s.stakingProviderInfo p).deauthorizing ≤ (s.stakingProviderInfo p).authorized)
    (hsum : specSumTokens c s (specHorizon now dur)
        (specScanRange s startIndex (specEndIndex s.stakingProviders.length startIndex maxCount))
      < 2 ^ 96)
    (hov : now + dur < 2 ^ 256)
    (hpag : maxCount ≠ 0 → startIndex + maxCount < 2 ^ 256) :
    (s.stakingProviders.length ≤ startIndex →
      getActiveStakingProviders c s now startIndex maxCount dur = none) ∧
    (startIndex < s.stakingProviders.length →
      getActiveStakingProviders c s now startIndex maxCount dur =
        some (specSumTokens c s (specHorizon now dur)
            (specScanRange s startIndex
              (specEndIndex s.stakingProviders.length startIndex maxCount)),
          specPacked c s (specHorizon now dur)
            (specScanRange s startIndex
              (specEndIndex s.stakingProviders.length startIndex maxCount)))) := by
  constructor
  · intro h
    simp only [getActiveStakingProviders]
    rw [if_neg (Nat.not_lt.mpr h)]
  · intro h
    have hb : ∀ p ∈ specScanRange s startIndex
        (specEndIndex s.stakingProviders.length startIndex maxCount),
        eligibleStake s p (specHorizon now dur) =
          some (specEligibleStake s p (specHorizon now dur)) ∧
        specEligibleStake s p (specHorizon now dur) < 2 ^ 96 := by
      intro p hp
      exact ⟨eligibleStake_eq_spec s p _ (hd p hp),
        Nat.lt_of_le_of_lt (specEligibleStake_le s p _) (hWF p).1⟩
    have hloop := activeLoop_spec c s (specHorizon now dur)
      (specScanRange s startIndex (specEndIndex s.stakingProviders.length startIndex maxCount))
      0 hb (by rw [Nat.zero_add]; exact hsum)
    rw [Nat.zero_add] at hloop
    simp only [getActiveStakingProviders]
    rw [if_pos h,
      if_neg (fun hcon : maxCount ≠ 0 ∧ ¬ startIndex + maxCount < 2 ^ 256 =>
        hcon.2 (hpag hcon.1)),
      endIndex_eq_spec]
    by_cases hdur : dur = 0
    · rw [if_pos hdur]
      have hh : specHorizon now dur = UINT256MAX := by simp [specHorizon, hdur]
      rw [← hh]
      subst hdur
      exact hloop
    · rw [if_neg hdur, if_pos hov]
      have hh : specHorizon now dur = now + dur := by simp [specHorizon, hdur]
      rw [← hh]
      exact hloop

/-- Witness for C7 at `deauthState`: one confirmed provider with eligible
stake `10 - 4 = 6` at the unbounded horizon; the scan returns it with sum 6. -/
theorem c7_getActive_paginated_witness :
    WF deauthState ∧
    0 < deauthState.stakingProviders.length ∧
    getActiveStakingProviders sampleConfig deauthState 0 0 0 0 =
      some (specSumTokens sampleConfig deauthState (specHorizon 0 0)
          (specScanRange deauthState 0 (specEndIndex deauthState.stakingProviders.length 0 0)),
        specPacked sampleConfig deauthState (specHorizon 0 0)
          (specScanRange deauthState 0 (specEndIndex deauthState.stakingProviders.length 0 0))) := by
  have hWF : WF deauthState := by
    intro p
    by_cases hp : p = 1 <;> simp [deauthState, initialState, emptyInfo, hp]
  exact ⟨hWF, by decide,
    (c7_getActive_paginated sampleConfig deauthState 0 0 0 0 hWF
      (by decide) (by decide) (by decide) (by decide)).2 (by decide)⟩

/-! Reachability invariant for the state-machine claims C2, C6, C9. -/

/-- Invariant maintained by every transaction from the fresh proxy state:
the zero operator is never mapped, the zero provider's entry is never written,
the reverse mapping is consistent with the stored operator bindings, and the
enumeration array is duplicate-free and agrees with the stored 1-based
indices. -/
structure Inv (s : State) : Prop where
  o2sp_zero : s.operatorToStakingProvider 0 = 0
  zero_info : s.stakingProviderInfo 0 = emptyInfo
  operator_consistent : ∀ o, s.operatorToStakingProvider o ≠ 0 →
    (s.stakingProviderInfo (s.operatorToStakingProvider o)).operator = o
  nodup : s.stakingProviders.Nodup
  mem_iff : ∀ p, p ∈ s.stakingProviders ↔ (s.stakingProviderInfo p).index ≠ 0
  index_pos : ∀ p, (s.stakingProviderInfo p).index ≠ 0 →
    s.stakingProviders[(s.stakingProviderInfo p).index - 1]? = some p

theorem inv_initialState : Inv initialState := by
  refine ⟨rfl, rfl, ?_, List.nodup_nil, ?_, ?_⟩
  · intro o ho
    exact absurd rfl ho
  · intro p
    simp [initialState, emptyInfo]
  · intro p hp
    exact absurd rfl hp

theorem upd_zero_zero (f : Nat → Nat) (k : Nat) (hf : f 0 = 0) : upd f k 0 0 = 0 := by
  by_cases h : (0 : Nat) = k
  · rw [upd, if_pos h]
  · rw [upd, if_neg h]
    exact hf

theorem initRegistry_success (c : Config) (s : State) (a : Nat) (s' : State)
    (h : initRegistry c s a = some s') :
    s' = { s with initDone := true, coordinator := a } := by
  simp only [initRegistry] at h
  by_cases h1 : s.initDone
  · rw [if_pos h1] at h; cases h
  · rw [if_neg h1] at h
    by_cases h2 : s.coordinator ≠ 0
    · rw [if_pos h2] at h; cases h
    · rw [if_neg h2] at h
      by_cases h3 : a = 0
      · rw [if_pos h3] at h; cases h
      · rw [if_neg h3] at h
        by_cases h4 : c.coordApplication a ≠ c.selfAddr
        · rw [if_pos h4] at h; cases h
        · rw [if_neg h4] at h
          exact (Option.some.inj h).symm

theorem inv_updateAuthorization (s : State) (sp a d e : Nat) (h : Inv s) :
    Inv (_updateAuthorization s sp a d e) := by
  by_cases hno : sp = 0 ∨ (a = (s.stakingProviderInfo sp).authorized ∧
      d = (s.stakingProviderInfo sp).deauthorizing ∧
      e = (s.stakingProviderInfo sp).endDeauthorization)
  · simp only [_updateAuthorization, if_pos hno]
    exact h
  · have hsp : sp ≠ 0 := fun h0 => hno (Or.inl h0)
    simp only [_updateAuthorization, if_neg hno]
    refine ⟨h.o2sp_zero, ?_, ?_, h.nodup, ?_, ?_⟩
    · show upd s.stakingProviderInfo sp _ 0 = emptyInfo
      rw [upd_other _ _ _ _ (Ne.symm hsp)]
      exact h.zero_info
    · intro o ho
      show (upd s.stakingProviderInfo sp _ (s.operatorToStakingProvider o)).operator = o
      by_cases hq : s.operatorToStakingProvider o = sp
      · rw [hq, upd_same]
        have hc := h.operator_consistent o ho
        rw [hq] at hc
        exact hc
      · rw [upd_other _ _ _ _ hq]
        exact h.operator_consistent o ho
    · intro p
      show p ∈ s.stakingProviders ↔ (upd s.stakingProviderInfo sp _ p).index ≠ 0
      by_cases hq : p = sp
      · subst hq
        rw [upd_same]
        exact h.mem_iff _
      · rw [upd_other _ _ _ _ hq]
        exact h.mem_iff p
    · intro p
      show (upd s.stakingProviderInfo sp _ p).index ≠ 0 →
        s.stakingProviders[(upd s.stakingProviderInfo sp _ p).index - 1]? = some p
      intro hp
      by_cases hq : p = sp
      · subst hq
        rw [upd_same] at hp ⊢
        exact h.index_pos _ hp
      · rw [upd_other _ _ _ _ hq] at hp ⊢
        exact h.index_pos p hp

theorem inv_updateOperator (s : State) (sp op : Nat) (h : Inv s) :
    Inv (_updateOperator s sp op) := by
  by_cases hno : sp = 0 ∨ op = (s.stakingProviderInfo sp).operator
  · simp only [_updateOperator, if_pos hno]
    exact h
  · have hsp : sp ≠ 0 := fun h0 => hno (Or.inl h0)
    have hop : op ≠ (s.stakingProviderInfo sp).operator := fun h0 => hno (Or.inr h0)
    simp only [_updateOperator, if_neg hno]
    set info := s.stakingProviderInfo sp with hinfodef
    set l := s.stakingProviders with hldef
    set newInfo : StakingProviderInfo := ⟨op, info.authorized, false,
      if info.index = 0 then l.length + 1 else info.index,
      info.deauthorizing, info.endDeauthorization⟩ with hnew
    set providers' := if info.index = 0 then l ++ [sp] else l with hprov
    set o2sp' := upd s.operatorToStakingProvider info.operator 0 with ho2sp'
    set o2sp'' := if op ≠ 0 then upd o2sp' op sp else o2sp' with ho2sp''
    have hmemsp : sp ∈ l ↔ info.index ≠ 0 := h.mem_iff sp
    have hnewidx : newInfo.index = if info.index = 0 then l.length + 1 else info.index := rfl
    refine ⟨?_, ?_, ?_, ?_, ?_, ?_⟩
    · -- o2sp'' 0 = 0
      show o2sp'' 0 = 0
      have hbase : o2sp' 0 = 0 := upd_zero_zero _ _ h.o2sp_zero
      by_cases h0 : op ≠ 0
      · rw [ho2sp'', if_pos h0, upd_other _ _ _ _ (Ne.symm h0)]
        exact hbase
      · rw [ho2sp'', if_neg h0]
        exact hbase
    · -- zero provider untouched
      show upd s.stakingProviderInfo sp newInfo 0 = emptyInfo
      rw [upd_other _ _ _ _ (Ne.symm hsp)]
      exact h.zero_info
    · -- reverse-mapping consistency
      show ∀ o, o2sp'' o ≠ 0 → (upd s.stakingProviderInfo sp newInfo (o2sp'' o)).operator = o
      intro o ho
      by_cases h0 : op ≠ 0
      · rw [ho2sp'', if_pos h0] at ho ⊢
        by_cases hoop : o = op
        · subst hoop
          rw [upd_same, upd_same]
        · rw [upd_other _ _ _ _ hoop] at ho ⊢
          by_cases hold : o = info.operator
          · subst hold
            rw [ho2sp', upd_same] at ho
            exact absurd rfl ho
          · rw [ho2sp', upd_other _ _ _ _ hold] at ho ⊢
            have hcons := h.operator_consistent o ho
            by_cases hqsp : s.operatorToStakingProvider o = sp
            · rw [hqsp] at hcons
              exact absurd hcons.symm hold
            · rw [upd_other _ _ _ _ hqsp]
              exact hcons
      · rw [ho2sp'', if_neg h0] at ho ⊢
        by_cases hold : o = info.operator
        · subst hold
          rw [ho2sp', upd_same] at ho
          exact absurd rfl ho
        · rw [ho2sp', upd_other _ _ _ _ hold] at ho ⊢
          have hcons := h.operator_consistent o ho
          by_cases hqsp : s.operatorToStakingProvider o = sp
          · rw [hqsp] at hcons
            exact absurd hcons.symm hold
          · rw [upd_other _ _ _ _ hqsp]
            exact hcons
    · -- no duplicates
      show providers'.Nodup
      by_cases hidx : info.index = 0
      · rw [hprov, if_pos hidx]
        have hnot : sp ∉ l := fun hm => (hmemsp.mp hm) hidx
        rw [List.nodup_append]
        refine ⟨h.nodup, List.nodup_singleton sp, ?_⟩
        intro a ha hb
        rw [List.mem_singleton] at hb
        subst hb
        exact hnot ha
      · rw [hprov, if_neg hidx]
        exact h.nodup
    · -- membership matches a non-zero index
      show ∀ q, q ∈ providers' ↔ (upd s.stakingProviderInfo sp newInfo q).index ≠ 0
      intro q
      by_cases hq : q = sp
      · subst hq
        rw [upd_same, hnewidx]
        by_cases hidx : info.index = 0
        · rw [hprov, if_pos hidx, if_pos hidx]
          constructor
          · intro _
            exact Nat.succ_ne_zero _
          · intro _
            exact List.mem_append_right l (List.mem_singleton.mpr rfl)
        · rw [hprov, if_neg hidx, if_neg hidx]
          constructor
          · intro _
            exact hidx
          · intro _
            exact hmemsp.mpr hidx
      · rw [upd_other _ _ _ _ hq]
        by_cases hidx : info.index = 0
        · rw [hprov, if_pos hidx, List.mem_append]
          constructor
          · intro hmem
            rcases hmem with hmem | hmem
            · exact (h.mem_iff q).mp hmem
            · rw [List.mem_singleton] at hmem
              exact absurd hmem hq
          · intro hq0
            exact Or.inl ((h.mem_iff q).mpr hq0)
        · rw [hprov, if_neg hidx]
          exact h.mem_iff q
    · -- index points at the provider's slot
      show ∀ q, (upd s.stakingProviderInfo sp newInfo q).index ≠ 0 →
        providers'[(upd s.stakingProviderInfo sp newInfo q).index - 1]? = some q
      intro q hq0
      by_cases hq : q = sp
      · subst hq
        rw [upd_same, hnewidx] at hq0 ⊢
        by_cases hidx : info.index = 0
        · rw [hprov, if_pos hidx, if_pos hidx, Nat.add_sub_cancel]
          exact List.getElem?_concat_length l _
        · rw [hprov, if_neg hidx, if_neg hidx]
          exact h.index_pos _ hidx
      · rw [upd_other _ _ _ _ hq] at hq0 ⊢
        have hold := h.index_pos q hq0
        by_cases hidx : info.index = 0
        · rw [hprov, if_pos hidx]
          obtain ⟨hlt, _⟩ := List.getElem?_eq_some_iff.mp hold
          rw [List.getElem?_append_left hlt]
          exact hold
        · rw [hprov, if_neg hidx]
          exact hold

theorem inv_confirm (c : Config) (s : State) (caller op : Nat) (s' : State)
    (hmin : 0 < c.minimumAuthorization) (h : Inv s)
    (hs : confirmOperatorAddress c s caller op = some s') : Inv s' := by
  obtain ⟨hc, hauth, hconf, rfl⟩ := confirm_success c s caller op s' hs
  have hspc0 : s.operatorToStakingProvider op ≠ 0 := by
    intro h0
    rw [h0, h.zero_info] at hauth
    exact absurd hauth (by simpa [emptyInfo] using Nat.not_le.mpr hmin)
  refine ⟨h.o2sp_zero, ?_, ?_, h.nodup, ?_, ?_⟩
  · show upd s.stakingProviderInfo (s.operatorToStakingProvider op) _ 0 = emptyInfo
    rw [upd_other _ _ _ _ (Ne.symm hspc0)]
    exact h.zero_info
  · show ∀ o, s.operatorToStakingProvider o ≠ 0 →
      (upd s.stakingProviderInfo (s.operatorToStakingProvider op) _
        (s.operatorToStakingProvider o)).operator = o
    intro o ho
    by_cases hq : s.operatorToStakingProvider o = s.operatorToStakingProvider op
    · rw [hq, upd_same]
      have hcons := h.operator_consistent o ho
      rw [hq] at hcons
      exact hcons
    · rw [upd_other _ _ _ _ hq]
      exact h.operator_consistent o ho
  · show ∀ p, p ∈ s.stakingProviders ↔
      (upd s.stakingProviderInfo (s.operatorToStakingProvider op) _ p).index ≠ 0
    intro p
    by_cases hq : p = s.operatorToStakingProvider op
    · subst hq
      rw [upd_same]
      exact h.mem_iff _
    · rw [upd_other _ _ _ _ hq]
      exact h.mem_iff p
  · show ∀ p, (upd s.stakingProviderInfo (s.operatorToStakingProvider op) _ p).index ≠ 0 →
      s.stakingProviders[(upd s.stakingProviderInfo (s.operatorToStakingProvider op) _ p).index
        - 1]? = some p
    intro p hp
    by_cases hq : p = s.operatorToStakingProvider op
    · subst hq
      rw [upd_same] at hp ⊢
      exact h.index_pos _ hp
    · rw [upd_other _ _ _ _ hq] at hp ⊢
      exact h.index_pos p hp

theorem inv_execTx (c : Config) (s : State) (o : Op)
    (hmin : 0 < c.minimumAuthorization) (h : Inv s) : Inv (execTx c s o) := by
  cases o with
  | initRegistry a =>
    simp only [execTx, step]
    cases hstep : initRegistry c s a with
    | none => exact h
    | some s' =>
      rw [Option.getD_some, initRegistry_success c s a s' hstep]
      exact ⟨h.o2sp_zero, h.zero_info, h.operator_consistent, h.nodup, h.mem_iff, h.index_pos⟩
  | updateOperator caller sp op' =>
    simp only [execTx, step]
    by_cases hr : caller = c.rootApplication
    · rw [if_pos hr, Option.getD_some]
      exact inv_updateOperator s sp op' h
    · rw [if_neg hr]
      exact h
  | updateAuthorization caller sp a d e =>
    simp only [execTx, step]
    by_cases hr : caller = c.rootApplication
    · rw [if_pos hr, Option.getD_some]
      exact inv_updateAuthorization s sp a d e h
    · rw [if_neg hr]
      exact h
  | updateAuthorizationLegacy caller sp a =>
    simp only [execTx, step]
    by_cases hr : caller = c.rootApplication
    · rw [if_pos hr, Option.getD_some]
      exact inv_updateAuthorization s sp a 0 0 h
    · rw [if_neg hr]
      exact h
  | confirmOperatorAddress caller op' =>
    simp only [execTx, step]
    cases hstep : confirmOperatorAddress c s caller op' with
    | none => exact h
    | some s' =>
      rw [Option.getD_some]
      exact inv_confirm c s caller op' s' hmin h hstep

theorem inv_runFrom (c : Config) (hmin : 0 < c.minimumAuthorization) :
    ∀ (ops : List Op) (s : State), Inv s → Inv (runFrom c s ops) := by
  intro ops
  induction ops with
  | nil => intro s h; exact h
  | cons o os ih =>
    intro s h
    exact ih (execTx c s o) (inv_execTx c s o hmin h)

theorem inv_run (c : Config) (hmin : 0 < c.minimumAuthorization) (ops : List Op) :
    Inv (run c ops) :=
  inv_runFrom c hmin ops initialState inv_initialState

/-- Whether a transaction is an `updateOperator` call for provider `p`. -/
def Op.updatesOperatorOf : Op → Nat → Bool
  | .updateOperator _ sp _, p => decide (sp = p)
  | _, _ => false

/-- A provider that is not the target of an `updateOperator` transaction keeps
a zero index and stays out of the enumeration array. -/
theorem untouched_execTx (c : Config) (s : State) (o : Op) (p : Nat)
    (hnt : o.updatesOperatorOf p = false)
    (hidx : (s.stakingProviderInfo p).index = 0) (hmem : p ∉ s.stakingProviders) :
    ((execTx c s o).stakingProviderInfo p).index = 0 ∧
    p ∉ (execTx c s o).stakingProviders := by
  cases o with
  | initRegistry a =>
    simp only [execTx, step]
    cases hstep : initRegistry c s a with
    | none => exact ⟨hidx, hmem⟩
    | some s' =>
      rw [Option.getD_some, initRegistry_success c s a s' hstep]
      exact ⟨hidx, hmem⟩
  | updateOperator caller sp op' =>
    have hspp : sp ≠ p := of_decide_eq_false hnt
    simp only [execTx, step]
    by_cases hr : caller = c.rootApplication
    · rw [if_pos hr, Option.getD_some]
      by_cases hno : sp = 0 ∨ op' = (s.stakingProviderInfo sp).operator
      · simp only [_updateOperator, if_pos hno]
        exact ⟨hidx, hmem⟩
      · simp only [_updateOperator, if_neg hno]
        constructor
        · show (upd s.stakingProviderInfo sp _ p).index = 0
          rw [upd_other _ _ _ _ (Ne.symm hspp)]
          exact hidx
        · show p ∉ (if (s.stakingProviderInfo sp).index = 0 then
            s.stakingProviders ++ [sp] else s.stakingProviders)
          by_cases hidx2 : (s.stakingProviderInfo sp).index = 0
          · rw [if_pos hidx2]
            intro hmm
            rcases List.mem_append.mp hmm with hmm | hmm
            · exact hmem hmm
            · rw [List.mem_singleton] at hmm
              exact hspp hmm.symm
          · rw [if_neg hidx2]
            exact hmem
    · rw [if_neg hr]
      exact ⟨hidx, hmem⟩
  | updateAuthorization caller sp a d e =>
    simp only [execTx, step]
    by_cases hr : caller = c.rootApplication
    · rw [if_pos hr, Option.getD_some]
      by_cases hno : sp = 0 ∨ (a = (s.stakingProviderInfo sp).authorized ∧
          d = (s.stakingProviderInfo sp).deauthorizing ∧
          e = (s.stakingProviderInfo sp).endDeauthorization)
      · simp only [_updateAuthorization, if_pos hno]
        exact ⟨hidx, hmem⟩
      · simp only [_updateAuthorization, if_neg hno]
        refine ⟨?_, hmem⟩
        show (upd s.stakingProviderInfo sp _ p).index = 0
        by_cases hq : p = sp
        · rw [hq, upd_same]
          rw [hq] at hidx
          exact hidx
        · rw [upd_other _ _ _ _ hq]
          exact hidx
    · rw [if_neg hr]
      exact ⟨hidx, hmem⟩
  | updateAuthorizationLegacy caller sp a =>
    simp only [execTx, step]
    by_cases hr : caller = c.rootApplication
    · rw [if_pos hr, Option.getD_some]
      by_cases hno : sp = 0 ∨ (a = (s.stakingProviderInfo sp).authorized ∧
          0 = (s.stakingProviderInfo sp).deauthorizing ∧
          0 = (s.stakingProviderInfo sp).endDeauthorization)
      · simp only [_updateAuthorization, if_pos hno]
        exact ⟨hidx, hmem⟩
      · simp only [_updateAuthorization, if_neg hno]
        refine ⟨?_, hmem⟩
        show (upd s.stakingProviderInfo sp _ p).index = 0
        by_cases hq : p = sp
        · rw [hq, upd_same]
          rw [hq] at hidx
          exact hidx
        · rw [upd_other _ _ _ _ hq]
          exact hidx
    · rw [if_neg hr]
      exact ⟨hidx, hmem⟩
  | confirmOperatorAddress caller op' =>
    simp only [execTx, step]
    cases hstep : confirmOperatorAddress c s caller op' with
    | none => exact ⟨hidx, hmem⟩
    | some s' =>
      rw [Option.getD_some]
      obtain ⟨hc, hauth, hconf, rfl⟩ := confirm_success c s caller op' s' hstep
      refine ⟨?_, hmem⟩
      show (upd s.stakingProviderInfo (s.operatorToStakingProvider op') _ p).index = 0
      by_cases hq : p = s.operatorToStakingProvider op'
      · rw [hq, upd_same]
        rw [hq] at hidx
        exact hidx
      · rw [upd_other _ _ _ _ hq]
        exact hidx

theorem untouched_runFrom (c : Config) (p : Nat) :
    ∀ (ops : List Op) (s : State), (∀ o ∈ ops, o.updatesOperatorOf p = false) →
      (s.stakingProviderInfo p).index = 0 → p ∉ s.stakingProviders →
      ((runFrom c s ops).stakingProviderInfo p).index = 0 ∧
      p ∉ (runFrom c s ops).stakingProviders := by
  intro ops
  induction ops with
  | nil => intro s _ h1 h2; exact ⟨h1, h2⟩
  | cons o os ih =>
    intro s hall h1 h2
    obtain ⟨h1', h2'⟩ := untouched_execTx c s o p (hall o (List.mem_cons_self o os)) h1 h2
    exact ih (execTx c s o) (fun o' ho' => hall o' (List.mem_cons_of_mem o ho')) h1' h2'

/-! Claim C6. -/

/-- C6: after every sequence of transactions from the fresh state, the
enumeration array has no duplicates; a provider never targeted by an
`updateOperator` call is absent from it and has `index == 0`; and every
provider with a non-zero index sits at position `index - 1` of the array. -/
theorem c6_enumeration_invariants (c : Config) (hmin : 0 < c.minimumAuthorization)
    (ops : List Op) (p : Nat)
    (hp : ∀ o ∈ ops, o.updatesOperatorOf p = false) :
    (run c ops).stakingProviders.Nodup ∧
    p ∉ (run c ops).stakingProviders ∧
    ((run c ops).stakingProviderInfo p).index = 0 ∧
    (∀ q, ((run c ops).stakingProviderInfo q).index ≠ 0 →
      (run c ops).stakingProviders[((run c ops).stakingProviderInfo q).index - 1]? = some q) := by
  have hinv := inv_run c hmin ops
  obtain ⟨h1, h2⟩ := untouched_runFrom c p ops initialState hp rfl (List.not_mem_nil p)
  exact ⟨hinv.nodup, h2, h1, hinv.index_pos⟩

/-- Transactions exercising initialization, operator binding, an authorization
update and a confirmation, used as a concrete reachable history. -/
def historyOps : List Op :=
  [.initRegistry 3, .updateOperator 7 1 2, .updateAuthorization 7 1 5 0 0]

/-- Witness for C6 along `historyOps` with the never-targeted provider 9. -/
theorem c6_enumeration_invariants_witness :
    0 < sampleConfig.minimumAuthorization ∧
    (∀ o ∈ historyOps, o.updatesOperatorOf 9 = false) ∧
    ((run sampleConfig historyOps).stakingProviders.Nodup ∧
      9 ∉ (run sampleConfig historyOps).stakingProviders ∧
      ((run sampleConfig historyOps).stakingProviderInfo 9).index = 0 ∧
      (∀ q, ((run sampleConfig historyOps).stakingProviderInfo q).index ≠ 0 →
        (run sampleConfig historyOps).stakingProviders[((run sampleConfig
          historyOps).stakingProviderInfo q).index - 1]? = some q)) :=
  ⟨by decide, by decide,
   c6_enumeration_invariants sampleConfig (by decide) historyOps 9 (by decide)⟩

/-! Claim C9. -/

/-- C9: for every reachable state and every operator with no bound provider,
a coordinator call to `confirmOperatorAddress` reverts: the lookup resolves to
the zero provider, whose `authorized` is 0, below the positive
`minimumAuthorization` required by the constructor. -/
theorem c9_confirm_unbound_operator (c : Config) (hmin : 0 < c.minimumAuthorization)
    (ops : List Op) (caller op : Nat)
    (hcaller : caller = (run c ops).coordinator)
    (hunbound : (run c ops).operatorToStakingProvider op = 0) :
    step c (run c ops) (.confirmOperatorAddress caller op) = none := by
  have hinv := inv_run c hmin ops
  simp only [step, confirmOperatorAddress]
  rw [if_neg (not_not_intro hcaller), hunbound, hinv.zero_info,
    if_pos (show emptyInfo.authorized < c.minimumAuthorization from hmin)]

/-- Witness for C9: after initialization, confirming the never-bound
operator 5 reverts. -/
theorem c9_confirm_unbound_operator_witness :
    0 < sampleConfig.minimumAuthorization ∧
    (run sampleConfig historyOps).operatorToStakingProvider 5 = 0 ∧
    step sampleConfig (run sampleConfig historyOps) (.confirmOperatorAddress 3 5) = none :=
  ⟨by decide, by decide,
   c9_confirm_unbound_operator sampleConfig (by decide) historyOps 3 5 (by decide) (by decide)⟩

/-! Claim C2: how the `operatorConfirmed` flag evolves. -/

theorem initRegistry_info (c : Config) (s : State) (a : Nat) (s' : State)
    (hs : initRegistry c s a = some s') (q : Nat) :
    s'.stakingProviderInfo q = s.stakingProviderInfo q := by
  rw [initRegistry_success c s a s' hs]

theorem _updateOperator_confirmed_other (s : State) (sp op q : Nat) (hq : q ≠ sp) :
    ((_updateOperator s sp op).stakingProviderInfo q).operatorConfirmed =
      (s.stakingProviderInfo q).operatorConfirmed := by
  simp only [_updateOperator]
  split
  · rfl
  · show (upd s.stakingProviderInfo sp _ q).operatorConfirmed = _
    rw [upd_other _ _ _ _ hq]

theorem _updateOperator_confirmed_target (s : State) (sp op : Nat)
    (hno : ¬ (sp = 0 ∨ op = (s.stakingProviderInfo sp).operator)) :
    ((_updateOperator s sp op).stakingProviderInfo sp).operatorConfirmed = false := by
  simp only [_updateOperator, if_neg hno]
  show (upd s.stakingProviderInfo sp _ sp).operatorConfirmed = false
  rw [upd_same]

theorem _updateAuthorization_confirmed (s : State) (sp a d e q : Nat) :
    ((_updateAuthorization s sp a d e).stakingProviderInfo q).operatorConfirmed =
      (s.stakingProviderInfo q).operatorConfirmed := by
  simp only [_updateAuthorization]
  split
  · rfl
  · show (upd s.stakingProviderInfo sp _ q).operatorConfirmed = _
    by_cases hq : q = sp
    · rw [hq, upd_same]
    · rw [upd_other _ _ _ _ hq]

theorem confirm_confirmed_other (c : Config) (s : State) (caller op : Nat) (s' : State)
    (hs : confirmOperatorAddress c s caller op = some s') (q : Nat)
    (hq : q ≠ s.operatorToStakingProvider op) :
    (s'.stakingProviderInfo q).operatorConfirmed =
      (s.stakingProviderInfo q).operatorConfirmed := by
  obtain ⟨_, _, _, rfl⟩ := confirm_success c s caller op s' hs
  show (upd s.stakingProviderInfo (s.operatorToStakingProvider op) _ q).operatorConfirmed = _
  rw [upd_other _ _ _ _ hq]

theorem confirm_confirmed_target (c : Config) (s : State) (caller op : Nat) (s' : State)
    (hs : confirmOperatorAddress c s caller op = some s') :
    (s'.stakingProviderInfo (s.operatorToStakingProvider op)).operatorConfirmed = true := by
  obtain ⟨_, _, _, rfl⟩ := confirm_success c s caller op s' hs
  show (upd s.stakingProviderInfo (s.operatorToStakingProvider op) _
    (s.operatorToStakingProvider op)).operatorConfirmed = true
  rw [upd_same]

/-- C2 fails as stated: after binding provider 1, raising its authorization and
confirming its operator, another `updateOperator` for provider 1 takes
`operatorConfirmed` from true back to false. -/
theorem c2_counterexample :
    ((run sampleConfig (historyOps ++ [.confirmOperatorAddress 3 2])).stakingProviderInfo
      1).operatorConfirmed = true ∧
    ((execTx sampleConfig (run sampleConfig (historyOps ++ [.confirmOperatorAddress 3 2]))
      (.updateOperator 7 1 4)).stakingProviderInfo 1).operatorConfirmed = false := by
  decide

/-- C2 (amended): on every reachable state, `operatorConfirmed` turns from
false to true only through the coordinator calling `confirmOperatorAddress`
for the provider's currently-bound operator (which the reverse mapping then
resolves to that provider); it can turn from true back to false, but only
through `updateOperator` rebinding that provider to a different operator. -/
theorem c2_confirmed_transitions (c : Config) (hmin : 0 < c.minimumAuthorization)
    (ops : List Op) (o : Op) (s' : State) (p : Nat)
    (hstep : step c (run c ops) o = some s') :
    (((run c ops).stakingProviderInfo p).operatorConfirmed = false →
      (s'.stakingProviderInfo p).operatorConfirmed = true →
      o = Op.confirmOperatorAddress (run c ops).coordinator
        (((run c ops).stakingProviderInfo p).operator) ∧
      (run c ops).operatorToStakingProvider
        (((run c ops).stakingProviderInfo p).operator) = p) ∧
    (((run c ops).stakingProviderInfo p).operatorConfirmed = true →
      (s'.stakingProviderInfo p).operatorConfirmed = false →
      ∃ newOp, o = Op.updateOperator c.rootApplication p newOp ∧
        newOp ≠ ((run c ops).stakingProviderInfo p).operator) := by
  have hinv := inv_run c hmin ops
  set s := run c ops with hs
  cases o with
  | initRegistry a =>
    have hfr := initRegistry_info c s a s' hstep p
    constructor
    · intro h1 h2
      rw [hfr, h1] at h2
      exact absurd h2 Bool.false_ne_true
    · intro h1 h2
      rw [hfr, h1] at h2
      exact absurd h2 (by decide)
  | updateOperator caller sp op' =>
    have hr : caller = c.rootApplication := by
      by_contra hrc
      simp only [step, if_neg hrc] at hstep
      cases hstep
    have hs' : s' = _updateOperator s sp op' := by
      simp only [step, if_pos hr] at hstep
      exact (Option.some.inj hstep).symm
    subst hs'
    constructor
    · intro h1 h2
      by_cases hq : p = sp
      · by_cases hno : sp = 0 ∨ op' = (s.stakingProviderInfo sp).operator
        · have h2' : (s.stakingProviderInfo p).operatorConfirmed = true := by
            simp only [_updateOperator, if_pos hno] at h2
            exact h2
          rw [h1] at h2'
          exact absurd h2' Bool.false_ne_true
        · rw [hq] at h2
          rw [_updateOperator_confirmed_target s sp op' hno] at h2
          exact absurd h2 Bool.false_ne_true
      · rw [_updateOperator_confirmed_other s sp op' p hq, h1] at h2
        exact absurd h2 Bool.false_ne_true
    · intro h1 h2
      by_cases hq : p = sp
      · by_cases hno : sp = 0 ∨ op' = (s.stakingProviderInfo sp).operator
        · have h2' : (s.stakingProviderInfo p).operatorConfirmed = false := by
            simp only [_updateOperator, if_pos hno] at h2
            exact h2
          rw [h1] at h2'
          exact absurd h2' (by decide)
        · refine ⟨op', ?_, ?_⟩
          · rw [hr, hq]
          · rw [hq]
            exact fun hcon => hno (Or.inr hcon)
      · rw [_updateOperator_confirmed_other s sp op' p hq, h1] at h2
        exact absurd h2 (by decide)
  | updateAuthorization caller sp a d e =>
    have hr : caller = c.rootApplication := by
      by_contra hrc
      simp only [step, if_neg hrc] at hstep
      cases hstep
    have hs' : s' = _updateAuthorization s sp a d e := by
      simp only [step, if_pos hr] at hstep
      exact (Option.some.inj hstep).symm
    subst hs'
    constructor
    · intro h1 h2
      rw [_updateAuthorization_confirmed s sp a d e p, h1] at h2
      exact absurd h2 Bool.false_ne_true
    · intro h1 h2
      rw [_updateAuthorization_confirmed s sp a d e p, h1] at h2
      exact absurd h2 (by decide)
  | updateAuthorizationLegacy caller sp a =>
    have hr : caller = c.rootApplication := by
      by_contra hrc
      simp only [step, if_neg hrc] at hstep
      cases hstep
    have hs' : s' = _updateAuthorization s sp a 0 0 := by
      simp only [step, if_pos hr] at hstep
      exact (Option.some.inj hstep).symm
    subst hs'
    constructor
    · intro h1 h2
      rw [_updateAuthorization_confirmed s sp a 0 0 p, h1] at h2
      exact absurd h2 Bool.false_ne_true
    · intro h1 h2
      rw [_updateAuthorization_confirmed s sp a 0 0 p, h1] at h2
      exact absurd h2 (by decide)
  | confirmOperatorAddress caller op' =>
    have hconf := confirm_success c s caller op' s' hstep
    obtain ⟨hc, hauth, hold, _⟩ := hconf
    have hspc0 : s.operatorToStakingProvider op' ≠ 0 := by
      intro h0
      rw [h0, hinv.zero_info] at hauth
      exact absurd hauth (by simpa [emptyInfo] using Nat.not_le.mpr hmin)
    constructor
    · intro h1 h2
      by_cases hq : p = s.operatorToStakingProvider op'
      · have hopeq : (s.stakingProviderInfo p).operator = op' := by
          have hcons := hinv.operator_consistent op' hspc0
          rw [← hq] at hcons
          exact hcons
        constructor
        · rw [hc, hopeq]
        · rw [hopeq, ← hq]
      · rw [confirm_confirmed_other c s caller op' s' hstep p hq, h1] at h2
        exact absurd h2 Bool.false_ne_true
    · intro h1 h2
      by_cases hq : p = s.operatorToStakingProvider op'
      · have htgt := confirm_confirmed_target c s caller op' s' hstep
        rw [← hq] at htgt
        rw [htgt] at h2
        exact absurd h2 (by decide)
      · rw [confirm_confirmed_other c s caller op' s' hstep p hq, h1] at h2
        exact absurd h2 (by decide)

/-- Witness for C2: confirming operator 2 after `historyOps` flips provider 1's
flag from false to true, and the theorem identifies the transition as the
coordinator's confirmation of the bound operator. -/
theorem c2_confirmed_transitions_witness :
    0 < sampleConfig.minimumAuthorization ∧
    (Op.confirmOperatorAddress 3 2 =
        Op.confirmOperatorAddress (run sampleConfig historyOps).coordinator
          (((run sampleConfig historyOps).stakingProviderInfo 1).operator) ∧
      (run sampleConfig historyOps).operatorToStakingProvider
        (((run sampleConfig historyOps).stakingProviderInfo 1).operator) = 1) :=
  ⟨by decide,
   (c2_confirmed_transitions sampleConfig (by decide) historyOps
       (.confirmOperatorAddress 3 2)
       (execTx sampleConfig (run sampleConfig historyOps) (.confirmOperatorAddress 3 2))
       1 rfl).1 (by decide) (by decide)⟩

end TACo
